import Mathlib

/-!
Verification of the libcommhistory recent-contacts core: the recency merger
(RecentContactsModelPrivate::prependEvents and the model setters in
src/recentcontactsmodel.cpp) and the asynchronous contact resolver
(src/contactresolver.cpp), shallowly embedded as pure functions over
explicit state.
-/

namespace CommHistory

/-- Recipient value: addressing data plus the resolved contact id
(0 = no contact, mirroring the C++ convention where contactIds().value(0)
defaults to 0) and the address-capability bitset.
Modelled from the spec: the Recipient record of section 3 (recipient.cpp and
recipient.h are not part of the analysed sources). -/
structure Recipient where
  localUid : String
  remoteUid : String
  contactId : Nat
  addressCaps : Nat
  deriving DecidableEq, Repr

/-- Event value as used by the merger: id, end time, category bitmask and its
first recipient (the code only ever consults event.recipients().first() and
event.recipients().contactIds().value(0)). -/
structure Event where
  id : Nat
  endTime : Int
  category : Nat
  recipient : Recipient
  deriving DecidableEq, Repr

/-- eventContact (recentcontactsmodel.cpp lines 40-43): the contact id of the
first recipient of the event, 0 when unresolved. -/
def eventContact (e : Event) : Nat := e.recipient.contactId

/-- A default event used only as the out-of-range fallback of List.getD when
scanning rows by index (the C++ loops never index out of range). -/
def dummyEvent : Event := ⟨0, 0, 0, ⟨"", "", 0, 0⟩⟩

/-- Recipient::matchesAddressFlags.
Modelled from the spec: the recipient satisfies a required-address-capability
mask when its capability bitset intersects the mask (recipient.cpp is not part
of the analysed sources). -/
def matchesAddressFlags (r : Recipient) (flags : Nat) : Bool :=
  (r.addressCaps &&& flags) != 0

/-- Configuration and external collaborators of the merger:
queryLimit (capacity N, 0 = unbounded), the event category mask
(0 = Event.AnyCategory), the required-address flags, the exclude-favorites
flag, and the contact directory favorite query (SeasideCache, external). -/
structure MergerEnv where
  queryLimit : Nat
  eventCategoryMask : Nat
  excludeFavorites : Bool
  addressFlags : Nat
  favoriteContact : Nat → Bool

/-- Mutable state of RecentContactsModelPrivate: the materialized rows
(eventRootItem children) and the carried unresolvedEvents, resolvedEvents and
resolvedContactIds fields (recentcontactsmodel.cpp lines 82-84). -/
structure MergerState where
  rows : List Event
  unresolvedEvents : List Event
  resolvedEvents : List Event
  resolvedContactIds : List Nat
  deriving DecidableEq, Repr

/-- Observable output of one prependEvents pass: the events handed to
resolveAddedEvents, the removed row ranges (beginRemoveRows arguments), the
events inserted at the head (beginInsertRows block) and whether the final
resolved block (modelUpdatedSlot and resolvingChanged) ran. -/
structure MergerOutput where
  resolveRequests : List Event
  removedRanges : List (Nat × Nat)
  insertedEvents : List Event
  resolvingChangedEmitted : Bool
  deriving DecidableEq, Repr

/-- The category filter of the ingestion loop (recentcontactsmodel.cpp line
203): accept when the mask is Event.AnyCategory (= 0) or the category
intersects the mask. -/
def categoryOk (env : MergerEnv) (e : Event) : Bool :=
  env.eventCategoryMask == 0 || (e.category &&& env.eventCategoryMask) != 0

/-- The resolved branch of the ingestion loop of prependEvents
(recentcontactsmodel.cpp lines 207-228): accept each event whose first
recipient has a nonzero contact id not yet claimed, is not an excluded
favorite and matches the required address flags; stop as soon as the
accepted count reaches queryLimit. Returns the grown resolvedEvents and
resolvedContactIds. -/
def scanResolved (env : MergerEnv) :
    List Event → List Event → List Nat → List Event × List Nat
  | [], re, ids => (re, ids)
  | e :: rest, re, ids =>
    if categoryOk env e then
      let cid := eventContact e
      if cid ≠ 0 ∧ cid ∉ ids then
        if env.excludeFavorites && env.favoriteContact cid then
          scanResolved env rest re ids
        else if env.addressFlags = 0 ∨ matchesAddressFlags e.recipient env.addressFlags then
          let re' := re ++ [e]
          let ids' := cid :: ids
          if re'.length = env.queryLimit then (re', ids')
          else scanResolved env rest re' ids'
        else scanResolved env rest re ids
      else scanResolved env rest re ids
    else scanResolved env rest re ids

/-- Phase 1 of prependEvents (the ingestion loop, lines 200-230): an
unresolved batch is appended (category-filtered) to the unresolvedEvents
queue, a resolved batch goes through scanResolved. -/
def phase1 (env : MergerEnv) (s : MergerState) (events : List Event)
    (resolved : Bool) : MergerState :=
  if resolved then
    let p := scanResolved env events s.resolvedEvents s.resolvedContactIds
    { s with resolvedEvents := p.1, resolvedContactIds := p.2 }
  else
    { s with unresolvedEvents := s.unresolvedEvents ++ events.filter (categoryOk env) }

/-- The inner while loop of the trim phase (lines 259-261): decrement
removeIndex while it is still a member of the remove set; the fuel argument
is the number of remaining decrements (the loop runs at most i + 1 times
before removeIndex goes negative). -/
def skipRemovedN (S : List Nat) : Int → Nat → Int
  | i, 0 => i
  | i, n + 1 =>
    if i < 0 then i
    else if S.contains i.toNat then skipRemovedN S (i - 1) n
    else i

/-- skipRemoved S i: the first index r ≤ i that is not in the remove set S
(or a negative value when every index down to 0 is in S), exactly the value
removeIndex holds after the inner while loop of lines 259-261. -/
def skipRemoved (S : List Nat) (i : Int) : Int :=
  skipRemovedN S i (i + 1).toNat

/-- The outer trim while loop (recentcontactsmodel.cpp lines 258-269), run
for at most n = trimCount iterations: find the next tail index not already
marked for removal; stop when the scan runs off the front of the list,
otherwise mark the index and continue with one fewer entry to trim. -/
def trimLoopN (S : List Nat) (ri : Int) : Nat → List Nat
  | 0 => S
  | n + 1 =>
    let r := skipRemoved S ri
    if r < 0 then S
    else trimLoopN (r.toNat :: S) (r - 1) n

/-- The trim phase entry (lines 255-270): trimCount is computed as a signed
int and the loop body runs only while it is positive, hence toNat. -/
def trimLoop (S : List Nat) (ri : Int) (trimCount : Int) : List Nat :=
  trimLoopN S ri trimCount.toNat

/-- The superseded scan (lines 245-252): the indices of the current rows
whose contact id is claimed by an accepted event, collected in ascending row
order. -/
def supersededIdx (ids : List Nat) (rows : List Event) : List Nat :=
  (List.range rows.length).filter
    (fun row => decide (eventContact (rows.getD row dummyEvent) ∈ ids))

/-- Net effect of the removal loop of lines 277-295 on the row list: the
sorted remove indices are erased in strictly descending order (the code
walks the runs from the last one backwards and erases each run from its end
down to its start), so earlier indices stay valid. -/
def applyRemovals (rows : List Event) (idxs : List Nat) : List Event :=
  idxs.foldr (fun i acc => acc.eraseIdx i) rows

/-- Specification-side characterization of index-set removal used in the
proofs: keep the rows whose position (counted from i) is not in T. -/
def keepFrom (T : List Nat) : List Event → Nat → List Event
  | [], _ => []
  | e :: rest, i => if i ∈ T then keepFrom T rest (i + 1) else e :: keepFrom T rest (i + 1)

/-- Length of the trailing run of consecutive indices, computed on the
reversed (descending) index list: mirrors the consecutiveCount scan of lines
279-284. -/
def runLen : List Nat → Nat
  | [] => 0
  | [_] => 1
  | a :: b :: rest => if b + 1 = a then runLen (b :: rest) + 1 else 1

/-- The range-collapsing removal loop of lines 277-295 on the reversed
(descending) index list: emit the last run as a (start, end) pair, drop it
and continue; the fuel is bounded by the number of indices. -/
def collapseDescN : List Nat → Nat → List (Nat × Nat)
  | _, 0 => []
  | l, n + 1 =>
    match l with
    | [] => []
    | a :: rest =>
      let c := runLen (a :: rest)
      (a + 1 - c, a) :: collapseDescN (rest.drop (c - 1)) n

/-- The removed-row ranges emitted via beginRemoveRows, in emission order
(last run first), from the ascending sorted index list. -/
def collapseRuns (asc : List Nat) : List (Nat × Nat) :=
  collapseDescN asc.reverse asc.length

/-- The complete remove set of one merge: the superseded indices plus, when
a queryLimit is set, the trimmed tail indices (recentcontactsmodel.cpp lines
245-270); reCount is the number of accepted events about to be inserted. -/
def removalSet (env : MergerEnv) (ids : List Nat) (rows : List Event)
    (reCount : Nat) : List Nat :=
  let removeSet0 := supersededIdx ids rows
  if env.queryLimit ≠ 0 then
    trimLoop removeSet0 ((rows.length : Int) - 1)
      ((rows.length : Int) + reCount - removeSet0.length - env.queryLimit)
  else removeSet0

/-- Phase 3 of prependEvents (lines 243-308): when there are accepted
events, compute the remove set (superseded rows plus capacity trim), erase
those rows, insert the accepted events at the head preserving their order,
and clear resolvedEvents and resolvedContactIds. Returns the new state, the
removed ranges and the inserted events. -/
def mergePhase (env : MergerEnv) (s : MergerState) :
    MergerState × List (Nat × Nat) × List Event :=
  if s.resolvedEvents.isEmpty then (s, [], [])
  else
    let removeIndices :=
      (removalSet env s.resolvedContactIds s.rows s.resolvedEvents.length).insertionSort (· ≤ ·)
    ({ s with rows := s.resolvedEvents ++ applyRemovals s.rows removeIndices,
              resolvedEvents := [], resolvedContactIds := [] },
     collapseRuns removeIndices, s.resolvedEvents)

/-- The tail of prependEvents shared by the two paths that reach phase 3,
packaging the merge result with the final resolved block (lines 310-313). -/
def finishMerge (env : MergerEnv) (s : MergerState) (resolved : Bool) :
    MergerState × MergerOutput :=
  let p := mergePhase env s
  (p.1, ⟨[], p.2.1, p.2.2, resolved⟩)

/-- RecentContactsModelPrivate::prependEvents (recentcontactsmodel.cpp lines
196-314): run the ingestion loop, then either hand exactly the first queued
unresolved event to the resolver and return (when the limit is not yet
reached), or drop the queue and merge, or merge directly. -/
def prependEvents (env : MergerEnv) (s : MergerState) (events : List Event)
    (resolved : Bool) : MergerState × MergerOutput :=
  let s1 := phase1 env s events resolved
  match s1.unresolvedEvents with
  | e :: rest =>
    if env.queryLimit = 0 ∨ s1.resolvedEvents.length < env.queryLimit then
      ({ s1 with unresolvedEvents := rest }, ⟨[e], [], [], false⟩)
    else
      finishMerge env { s1 with unresolvedEvents := [] } resolved
  | [] => finishMerge env s1 resolved

/-- The model starts with no rows and empty resolution queues. -/
def initialMergerState : MergerState := ⟨[], [], [], []⟩

/-- A whole sequence of ingestion passes from the initial state; each batch
carries its resolved flag. -/
def ingestAll (env : MergerEnv) (batches : List (List Event × Bool)) : MergerState :=
  batches.foldl (fun st b => (prependEvents env st b.1 b.2).1) initialMergerState

/-! ### Model configuration setters (RecentContactsModel) -/

/-- RecentContactsModel.PhoneNumberRequired.
Modelled from the spec: the bit values of the required-property enum live in
recentcontactsmodel.h, which is not part of the analysed sources; the exact
values are immaterial to the claims. -/
def PhoneNumberRequired : Nat := 1

/-- RecentContactsModel.EmailAddressRequired (see PhoneNumberRequired). -/
def EmailAddressRequired : Nat := 2

/-- RecentContactsModel.AccountUriRequired (see PhoneNumberRequired). -/
def AccountUriRequired : Nat := 4

/-- QContactStatusFlags.HasPhoneNumber.
Modelled from the spec: the directory status-flag bit values are external
(qtcontacts extensions); the exact values are immaterial to the claims. -/
def HasPhoneNumber : Nat := 1

/-- QContactStatusFlags.HasEmailAddress (see HasPhoneNumber). -/
def HasEmailAddress : Nat := 2

/-- QContactStatusFlags.HasOnlineAccount (see HasPhoneNumber). -/
def HasOnlineAccount : Nat := 4

/-- The stored configuration of RecentContactsModelPrivate touched by the
setters: requiredProperty, excludeFavorites and the derived addressFlags. -/
structure ModelSettings where
  requiredProperty : Nat
  excludeFavorites : Bool
  addressFlags : Nat
  deriving DecidableEq, Repr

/-- The addressFlags computation of RecentContactsModel::setRequiredProperty
(recentcontactsmodel.cpp lines 335-341). -/
def computeAddressFlags (requiredProperty : Nat) : Nat :=
  let f1 := if requiredProperty &&& PhoneNumberRequired ≠ 0 then HasPhoneNumber else 0
  let f2 := if requiredProperty &&& EmailAddressRequired ≠ 0 then HasEmailAddress else 0
  let f3 := if requiredProperty &&& AccountUriRequired ≠ 0 then HasOnlineAccount else 0
  f1 ||| f2 ||| f3

/-- RecentContactsModel::setRequiredProperty (lines 331-348): recompute and
store addressFlags unconditionally, then update requiredProperty and emit
requiredPropertyChanged only when the stored value differs. Returns the new
settings and whether the changed signal was emitted. -/
def setRequiredProperty (s : ModelSettings) (v : Nat) : ModelSettings × Bool :=
  let flags := computeAddressFlags v
  let s1 := { s with addressFlags := flags }
  if s1.requiredProperty ≠ v then ({ s1 with requiredProperty := v }, true)
  else (s1, false)

/-- RecentContactsModel::setExcludeFavorites (lines 356-363): store and emit
excludeFavoritesChanged only when the stored value differs. -/
def setExcludeFavorites (s : ModelSettings) (b : Bool) : ModelSettings × Bool :=
  if s.excludeFavorites ≠ b then ({ s with excludeFavorites := b }, true)
  else (s, false)

/-! ### Contact resolver (src/contactresolver.cpp) -/

/-- The ring account prefix.
Modelled from the spec: RING_ACCOUNT is defined in commonutils_p.h, which is
not part of the analysed sources; the exact value is immaterial to the
claims. -/
def RING_ACCOUNT : String := "/org/freedesktop/Telepathy/Account/ring/"

/-- localUidComparesPhoneNumbers (commonutils.cpp lines 45-48): a local uid
denotes a phone-number account when it starts with the ring account prefix
(QString::startsWith rendered as a character-list prefix test). -/
def localUidComparesPhoneNumbers (localUid : String) : Bool :=
  RING_ACCOUNT.data.isPrefixOf localUid.data

/-- A recipient key: the (localUid, remoteUid) pair. Two recipients are
equal exactly when their pairs are (spec section 3), and the pending set and
the shared resolution results are keyed by it. -/
abbrev UidPair := String × String

/-- The external contact directory (SeasideCache): synchronous-hit-or-miss
resolution entry points, the best-match phone lookup used by the fan-out,
and the phone number minimization used to build match keys
(minimizePhoneNumber wraps an external extension function, commonutils.cpp
lines 60-63). A cache item is modelled by its contact id. -/
structure Directory where
  resolvePhoneNumber : String → Option Nat
  resolveOnlineAccount : String → String → Option Nat
  itemByPhoneNumber : String → Option Nat
  minimizePhone : String → String

/-- Recipient.matchesPhoneNumber against the match details derived from a
queried number.
Modelled from the spec: a pending entry matches the key when it is a
phone-number recipient whose own minimized number equals the key
(recipient.cpp is not part of the analysed sources). -/
def matchesPhoneNumber (dir : Directory) (p : UidPair) (key : String) : Bool :=
  localUidComparesPhoneNumbers p.1 && (dir.minimizePhone p.2 == key)

/-- State of ContactResolverPrivate plus its observable history: the pending
set, the resolving flag, force mode, the shared per-pair resolution results
(RecipientPrivate::setResolved writes through shared data, so one outcome
per (localUid, remoteUid) pair), the queued deferred finished-checks
(Qt::QueuedConnection invocations not yet delivered), the number of finished
signals emitted so far, and the number of directory lookups issued. -/
structure RState where
  pending : List UidPair
  resolving : Bool
  forceResolving : Bool
  resolvedMap : List (UidPair × Option Nat)
  deferredChecks : Nat
  finishedCount : Nat
  lookupCount : Nat
  deriving DecidableEq, Repr

/-- First binding of a pair in the shared resolution results. -/
def lookupPair (m : List (UidPair × Option Nat)) (p : UidPair) : Option (Option Nat) :=
  match m with
  | [] => none
  | b :: rest => if b.1 = p then some b.2 else lookupPair rest p

/-- Recipient::isContactResolved for the instance with the given pair: some
shared resolution outcome has been recorded for it. -/
def isContactResolved (m : List (UidPair × Option Nat)) (p : UidPair) : Bool :=
  (lookupPair m p).isSome

/-- RecipientPrivate::setResolved: record the outcome for the pair (the
newest write wins). -/
def setResolved (m : List (UidPair × Option Nat)) (p : UidPair)
    (item : Option Nat) : List (UidPair × Option Nat) :=
  (p, item) :: m

/-- The directory lookup performed by resolve (contactresolver.cpp lines
135-140): phone recipients go through resolvePhoneNumber, others through
resolveOnlineAccount. -/
def dirLookup (dir : Directory) (localUid remoteUid : String) : Option Nat :=
  if localUidComparesPhoneNumbers localUid then dir.resolvePhoneNumber remoteUid
  else dir.resolveOnlineAccount localUid remoteUid

/-- ContactResolverPrivate::resolve (contactresolver.cpp lines 120-147):
skip recipients already resolved (unless force mode), mark recipients with
an empty uid resolved to nothing without querying, deduplicate in-flight
pairs, otherwise query the directory once: a synchronous hit resolves
immediately, a miss inserts the pair into the pending set. -/
def resolveOp (dir : Directory) (r : Recipient) (s : RState) : RState :=
  if !s.forceResolving && isContactResolved s.resolvedMap (r.localUid, r.remoteUid) then s
  else if r.localUid = "" ∨ r.remoteUid = "" then
    { s with resolvedMap := setResolved s.resolvedMap (r.localUid, r.remoteUid) none }
  else if (r.localUid, r.remoteUid) ∈ s.pending then s
  else
    let s1 := { s with lookupCount := s.lookupCount + 1 }
    match dirLookup dir r.localUid r.remoteUid with
    | some cid =>
      { s1 with resolvedMap := setResolved s1.resolvedMap (r.localUid, r.remoteUid) (some cid) }
    | none => { s1 with pending := (r.localUid, r.remoteUid) :: s1.pending }

/-- ContactResolverPrivate::checkIfFinished (lines 162-171): when resolving
and nothing is pending, leave the resolving state and emit finished. -/
def checkIfFinished (s : RState) : RState :=
  if s.resolving && s.pending.isEmpty then
    { s with resolving := false, finishedCount := s.finishedCount + 1 }
  else s

/-- ContactResolverPrivate::checkIfFinishedAsynchronously (lines 149-160):
on the first submission while idle enter the resolving state, and when the
pending set is already empty queue one deferred checkIfFinished invocation. -/
def checkIfFinishedAsynchronously (s : RState) : RState :=
  if !s.resolving then
    let s1 := { s with resolving := true }
    if s1.pending.isEmpty then { s1 with deferredChecks := s1.deferredChecks + 1 }
    else s1
  else s

/-- Delivery of one queued deferred checkIfFinished invocation by the event
loop. -/
def runDeferred (s : RState) : RState :=
  if s.deferredChecks > 0 then checkIfFinished { s with deferredChecks := s.deferredChecks - 1 }
  else s

/-- ContactResolver::add for a single recipient (lines 93-98). -/
def addOne (dir : Directory) (r : Recipient) (s : RState) : RState :=
  checkIfFinishedAsynchronously (resolveOp dir r s)

/-- ContactResolver::add for a batch (lines 100-118): resolve every
recipient, then trigger a single finished-check for the whole batch. -/
def addList (dir : Directory) (rs : List Recipient) (s : RState) : RState :=
  checkIfFinishedAsynchronously (rs.foldl (fun st r => resolveOp dir r st) s)

/-- The processing part of ContactResolverPrivate::addressResolved (lines
178-197), before the final finished-check: an empty queryLocalUid is a
phone-number resolution, so re-derive the match key and resolve every
matching pending entry via its own best-match lookup; otherwise resolve the
single exactly-matching pending entry, if present. -/
def addressResolvedCore (dir : Directory) (first second : String)
    (item : Option Nat) (s : RState) : RState :=
  if first = "" then
    let key := dir.minimizePhone second
    { s with
      pending := s.pending.filter (fun p => !(matchesPhoneNumber dir p key)),
      resolvedMap :=
        ((s.pending.filter (fun p => matchesPhoneNumber dir p key)).map
          (fun p => (p, dir.itemByPhoneNumber p.2))) ++ s.resolvedMap }
  else if (first, second) ∈ s.pending then
    { s with
      pending := s.pending.filter (fun p => decide (p ≠ (first, second))),
      resolvedMap := setResolved s.resolvedMap (first, second) item }
  else s

/-- ContactResolverPrivate::addressResolved (lines 173-200): a callback with
an empty queryRemoteUid is malformed and dropped (the code returns before
the finished-check); otherwise process the callback and then run the
finished-check. -/
def addressResolved (dir : Directory) (first second : String)
    (item : Option Nat) (s : RState) : RState :=
  if second = "" then s
  else checkIfFinished (addressResolvedCore dir first second item s)

/-- The operations through which the resolver state evolves: a batch
submission, a directory callback, or the delivery of a deferred
finished-check. -/
inductive RAction where
  | add (rs : List Recipient)
  | callback (first second : String) (item : Option Nat)
  | deferred

/-- One step of the resolver under an action. -/
def stepR (dir : Directory) (a : RAction) (s : RState) : RState :=
  match a with
  | .add rs => addList dir rs s
  | .callback first second item => addressResolved dir first second item s
  | .deferred => runDeferred s

/-- The resolver starts idle with nothing pending and no history. -/
def initialRState : RState := ⟨[], false, false, [], 0, 0, 0⟩

/-! ### Concrete example inputs used by the scenario theorem and witnesses -/

/-- A recipient with the given contact id. -/
def exRecipient (c : Nat) : Recipient := ⟨"account", "remote", c, 0⟩

/-- Event E1 of the spec scenario: contact 5, endTime 10. -/
def exEvent1 : Event := ⟨1, 10, 1, exRecipient 5⟩

/-- Event E2 of the spec scenario: contact 7, endTime 9. -/
def exEvent2 : Event := ⟨2, 9, 1, exRecipient 7⟩

/-- Event E3 of the spec scenario: contact 7, endTime 20. -/
def exEvent3 : Event := ⟨3, 20, 1, exRecipient 7⟩

/-- A merger configuration with capacity 2 and no filters. -/
def exEnv2 : MergerEnv := ⟨2, 0, false, 0, fun _ => false⟩

/-- The starting state of the spec scenario: ResultList = [E1, E2]. -/
def exState12 : MergerState := ⟨[exEvent1, exEvent2], [], [], []⟩

/-- A directory where every lookup misses. -/
def exDirMiss : Directory := ⟨fun _ => none, fun _ _ => none, fun _ => none, fun n => n⟩

/-- A directory where every resolve hits synchronously. -/
def exDirHit : Directory := ⟨fun _ => some 1, fun _ _ => some 2, fun _ => none, fun n => n⟩

/-- A directory whose minimization identifies +1555 and +1-555 and whose
best-match lookup distinguishes the two original numbers. -/
def exDirPhone : Directory :=
  ⟨fun _ => none, fun _ _ => none,
   fun n => if n = "+1555" then some 3 else some 4,
   fun n => if n = "+1555" ∨ n = "+1-555" then "1555" else n⟩

/-- A resolving state with two pending phone recipients whose numbers share
one normalized key, plus one unrelated pending entry. -/
def exPendingPhones : RState :=
  ⟨[(RING_ACCOUNT ++ "a", "+1555"), (RING_ACCOUNT ++ "b", "+1-555"), ("other", "zzz")],
   true, false, [], 0, 0, 0⟩

/-- A resolving state with an empty pending set and one queued deferred
check, as reached right after an all-synchronous submission. -/
def exStuckState : RState := ⟨[], true, false, [], 1, 0, 0⟩

/-! ## Resolver helper lemmas -/

theorem checkIfFinished_pending (s : RState) : (checkIfFinished s).pending = s.pending := by
  simp only [checkIfFinished]
  split <;> rfl

theorem checkIfFinished_resolvedMap (s : RState) :
    (checkIfFinished s).resolvedMap = s.resolvedMap := by
  simp only [checkIfFinished]
  split <;> rfl

theorem checkIfFinished_emission (s : RState) :
    ((checkIfFinished s).finishedCount = s.finishedCount ∧
      (checkIfFinished s).resolving = s.resolving) ∨
    ((checkIfFinished s).finishedCount = s.finishedCount + 1 ∧
      s.resolving = true ∧ (checkIfFinished s).resolving = false) := by
  simp only [checkIfFinished]
  split
  · rename_i hc
    exact Or.inr ⟨rfl, by simpa using (Bool.and_eq_true _ _ ▸ hc).1, rfl⟩
  · exact Or.inl ⟨rfl, rfl⟩

theorem checkIfFinishedAsynchronously_finished (s : RState) :
    (checkIfFinishedAsynchronously s).finishedCount = s.finishedCount := by
  simp only [checkIfFinishedAsynchronously]
  split
  · split <;> rfl
  · rfl

theorem resolveOp_frame (dir : Directory) (r : Recipient) (s : RState) :
    (resolveOp dir r s).resolving = s.resolving ∧
    (resolveOp dir r s).finishedCount = s.finishedCount ∧
    (resolveOp dir r s).deferredChecks = s.deferredChecks := by
  simp only [resolveOp]
  split
  · exact ⟨rfl, rfl, rfl⟩
  · split
    · exact ⟨rfl, rfl, rfl⟩
    · split
      · exact ⟨rfl, rfl, rfl⟩
      · split <;> exact ⟨rfl, rfl, rfl⟩

theorem foldResolve_frame (dir : Directory) (rs : List Recipient) (s : RState) :
    (rs.foldl (fun st r => resolveOp dir r st) s).resolving = s.resolving ∧
    (rs.foldl (fun st r => resolveOp dir r st) s).finishedCount = s.finishedCount ∧
    (rs.foldl (fun st r => resolveOp dir r st) s).deferredChecks = s.deferredChecks := by
  induction rs generalizing s with
  | nil => exact ⟨rfl, rfl, rfl⟩
  | cons r tl ih =>
    simp only [List.foldl_cons]
    have h1 := resolveOp_frame dir r s
    have h2 := ih (resolveOp dir r s)
    exact ⟨h2.1.trans h1.1, h2.2.1.trans h1.2.1, h2.2.2.trans h1.2.2⟩

theorem resolveOp_pending_empty (dir : Directory) (r : Recipient) (s : RState)
    (hp : s.pending = [])
    (hr : r.localUid = "" ∨ r.remoteUid = "" ∨ dirLookup dir r.localUid r.remoteUid ≠ none) :
    (resolveOp dir r s).pending = [] := by
  simp only [resolveOp]
  split
  · exact hp
  · split
    · exact hp
    · split
      · exact hp
      · rcases hr with h | h | h
        · simp_all
        · simp_all
        · rcases hl : dirLookup dir r.localUid r.remoteUid with _ | cid
          · exact absurd hl h
          · simp only [hl]
            exact hp

theorem foldResolve_pending_empty (dir : Directory) (rs : List Recipient) (s : RState)
    (hp : s.pending = [])
    (hr : ∀ r ∈ rs,
      r.localUid = "" ∨ r.remoteUid = "" ∨ dirLookup dir r.localUid r.remoteUid ≠ none) :
    (rs.foldl (fun st r => resolveOp dir r st) s).pending = [] := by
  induction rs generalizing s with
  | nil => exact hp
  | cons r tl ih =>
    simp only [List.foldl_cons]
    exact ih _ (resolveOp_pending_empty dir r s hp (hr r (List.mem_cons_self _ _)))
      (fun x hx => hr x (List.mem_cons_of_mem _ hx))

theorem addressResolvedCore_frame (dir : Directory) (first second : String)
    (item : Option Nat) (s : RState) :
    (addressResolvedCore dir first second item s).resolving = s.resolving ∧
    (addressResolvedCore dir first second item s).finishedCount = s.finishedCount := by
  simp only [addressResolvedCore]
  split
  · exact ⟨rfl, rfl⟩
  · split <;> exact ⟨rfl, rfl⟩

theorem lookupPair_map_append_mem (ps : List UidPair) (f : UidPair → Option Nat)
    (m : List (UidPair × Option Nat)) (p : UidPair) (hp : p ∈ ps) :
    lookupPair ((ps.map fun q => (q, f q)) ++ m) p = some (f p) := by
  induction ps with
  | nil => cases hp
  | cons q tl ih =>
    simp only [List.map_cons, List.cons_append, lookupPair]
    by_cases hqp : q = p
    · subst hqp
      simp
    · rw [if_neg hqp]
      exact ih (by cases hp with
        | head => exact absurd rfl hqp
        | tail _ h => exact h)

theorem lookupPair_map_append_not_mem (ps : List UidPair) (f : UidPair → Option Nat)
    (m : List (UidPair × Option Nat)) (p : UidPair) (hp : p ∉ ps) :
    lookupPair ((ps.map fun q => (q, f q)) ++ m) p = lookupPair m p := by
  induction ps with
  | nil => simp
  | cons q tl ih =>
    simp only [List.map_cons, List.cons_append, lookupPair]
    rw [if_neg (by rintro rfl; exact hp (List.mem_cons_self _ _))]
    exact ih (fun h => hp (List.mem_cons_of_mem _ h))

/-! ## Merger helper lemmas -/

theorem skipRemovedN_spec (S : List Nat) :
    ∀ (n : Nat) (i : Int), (i + 1).toNat ≤ n →
      skipRemovedN S i n ≤ i ∧
      (skipRemovedN S i n < 0 ∨
        (0 ≤ skipRemovedN S i n ∧ S.contains (skipRemovedN S i n).toNat = false)) ∧
      (∀ j : Nat, skipRemovedN S i n < (j : Int) → (j : Int) ≤ i → j ∈ S) := by
  intro n
  induction n with
  | zero =>
    intro i hi
    simp only [skipRemovedN]
    refine ⟨le_refl _, Or.inl (by omega), ?_⟩
    intro j hj1 hj2
    exfalso
    omega
  | succ n ih =>
    intro i hi
    rw [skipRemovedN]
    split
    · rename_i hneg
      exact ⟨le_refl _, Or.inl hneg,
        fun j hj1 hj2 => absurd (lt_of_lt_of_le hj1 hj2) (lt_irrefl _)⟩
    · rename_i hpos
      split
      · rename_i hcont
        have hrec := ih (i - 1) (by omega)
        refine ⟨by omega, hrec.2.1, ?_⟩
        intro j hj1 hj2
        rcases lt_or_eq_of_le hj2 with hlt | heq
        · exact hrec.2.2 j hj1 (by omega)
        · have hji : j = i.toNat := by omega
          subst hji
          exact List.elem_iff.mp (by simpa [List.contains] using hcont)
      · rename_i hcont
        refine ⟨le_refl _, Or.inr ⟨by omega, by simpa using hcont⟩, ?_⟩
        intro j hj1 hj2
        exact absurd (lt_of_lt_of_le hj1 hj2) (lt_irrefl _)

theorem skipRemoved_spec (S : List Nat) (i : Int) :
    skipRemoved S i ≤ i ∧
    (skipRemoved S i < 0 ∨
      (0 ≤ skipRemoved S i ∧ S.contains (skipRemoved S i).toNat = false)) ∧
    (∀ j : Nat, skipRemoved S i < (j : Int) → (j : Int) ≤ i → j ∈ S) :=
  skipRemovedN_spec S ((i + 1).toNat) i (le_refl _)

theorem trimLoopN_spec (L : Nat) :
    ∀ (n : Nat) (S : List Nat) (ri : Int), S.Nodup → (∀ x ∈ S, x < L) → ri < L →
      (∀ j : Nat, ri < (j : Int) → j < L → j ∈ S) →
      (trimLoopN S ri n).Nodup ∧
      (∀ x ∈ trimLoopN S ri n, x < L) ∧
      (∀ x ∈ S, x ∈ trimLoopN S ri n) ∧
      ((trimLoopN S ri n).length = S.length + n ∨
        (∀ j, j < L → j ∈ trimLoopN S ri n)) := by
  intro n
  induction n with
  | zero =>
    intro S ri hnd hb hri hcov
    exact ⟨hnd, hb, fun x hx => hx, Or.inl rfl⟩
  | succ n ih =>
    intro S ri hnd hb hri hcov
    rw [trimLoopN]
    have hsk := skipRemoved_spec S ri
    split
    · rename_i hneg
      refine ⟨hnd, hb, fun x hx => hx, Or.inr ?_⟩
      intro j hj
      by_cases hle : (j : Int) ≤ ri
      · exact hsk.2.2 j (by omega) hle
      · exact hcov j (by omega) hj
    · rename_i hneg
      have hr0 : 0 ≤ skipRemoved S ri := by omega
      have hnotmem : (skipRemoved S ri).toNat ∉ S := by
        rcases hsk.2.1 with h | h
        · omega
        · intro hmem
          have hct : S.contains (skipRemoved S ri).toNat = true := by
            simp only [List.contains]
            exact List.elem_iff.mpr hmem
          rw [h.2] at hct
          cases hct
      have hrL : (skipRemoved S ri).toNat < L := by
        have := hsk.1
        omega
      have hrec := ih ((skipRemoved S ri).toNat :: S) (skipRemoved S ri - 1)
        (List.nodup_cons.mpr ⟨hnotmem, hnd⟩)
        (by
          intro x hx
          rcases List.mem_cons.mp hx with rfl | hx
          · exact hrL
          · exact hb x hx)
        (by omega)
        (by
          intro j hj1 hj2
          by_cases hje : (j : Int) = skipRemoved S ri
          · have hji : j = (skipRemoved S ri).toNat := by omega
            subst hji
            exact List.mem_cons_self _ _
          · by_cases hle : (j : Int) ≤ ri
            · exact List.mem_cons_of_mem _ (hsk.2.2 j (by omega) hle)
            · exact List.mem_cons_of_mem _ (hcov j (by omega) hj2))
      refine ⟨hrec.1, hrec.2.1, ?_, ?_⟩
      · intro x hx
        exact hrec.2.2.1 x (List.mem_cons_of_mem _ hx)
      · rcases hrec.2.2.2 with h | h
        · left
          rw [h]
          simp only [List.length_cons]
          omega
        · exact Or.inr h

theorem trimLoop_spec (L : Nat) (S : List Nat) (ri tc : Int)
    (hnd : S.Nodup) (hb : ∀ x ∈ S, x < L) (hri : ri < L)
    (hcov : ∀ j : Nat, ri < (j : Int) → j < L → j ∈ S) :
    (trimLoop S ri tc).Nodup ∧
    (∀ x ∈ trimLoop S ri tc, x < L) ∧
    (∀ x ∈ S, x ∈ trimLoop S ri tc) ∧
    ((trimLoop S ri tc).length = S.length + tc.toNat ∨
      (∀ j, j < L → j ∈ trimLoop S ri tc)) :=
  trimLoopN_spec L tc.toNat S ri hnd hb hri hcov

theorem pairwise_lt_length_le :
    ∀ (l : List Nat) (lo n : Nat), l.Pairwise (· < ·) →
      (∀ x ∈ l, lo ≤ x ∧ x < n) → l.length ≤ n - lo := by
  intro l
  induction l with
  | nil =>
    intro lo n _ _
    simp
  | cons x xs ih =>
    intro lo n hpw hb
    have hx := hb x (List.mem_cons_self _ _)
    have hxs := ih (x + 1) n (List.Pairwise.of_cons hpw)
      (by
        intro y hy
        have h1 := (List.pairwise_cons.mp hpw).1 y hy
        have h2 := hb y (List.mem_cons_of_mem _ hy)
        omega)
    simp only [List.length_cons]
    omega

theorem applyRemovals_length :
    ∀ (T : List Nat) (rows : List Event), T.Pairwise (· < ·) →
      (∀ x ∈ T, x < rows.length) →
      (applyRemovals rows T).length + T.length = rows.length := by
  intro T
  induction T with
  | nil =>
    intro rows _ _
    rfl
  | cons a tl ih =>
    intro rows hpw hb
    have hlen := ih rows (List.Pairwise.of_cons hpw)
      (fun x hx => hb x (List.mem_cons_of_mem _ hx))
    have htl : tl.length ≤ rows.length - (a + 1) :=
      pairwise_lt_length_le tl (a + 1) rows.length (List.Pairwise.of_cons hpw)
        (fun y hy => ⟨(List.pairwise_cons.mp hpw).1 y hy, hb y (List.mem_cons_of_mem _ hy)⟩)
    have ha : a < rows.length := hb a (List.mem_cons_self _ _)
    have hainner : a < (applyRemovals rows tl).length := by omega
    show ((applyRemovals rows tl).eraseIdx a).length + (a :: tl).length = rows.length
    rw [List.length_eraseIdx]
    simp only [List.length_cons]
    rw [if_pos hainner]
    omega

theorem keepFrom_nilT : ∀ (rows : List Event) (i : Nat), keepFrom [] rows i = rows := by
  intro rows
  induction rows with
  | nil =>
    intro i
    rfl
  | cons e rest ih =>
    intro i
    simp only [keepFrom, List.not_mem_nil, if_false]
    rw [ih]

theorem keepFrom_cons_lt : ∀ (rows : List Event) (T : List Nat) (a i : Nat), a < i →
    keepFrom (a :: T) rows i = keepFrom T rows i := by
  intro rows
  induction rows with
  | nil =>
    intro T a i _
    rfl
  | cons e rest ih =>
    intro T a i hai
    simp only [keepFrom, List.mem_cons]
    have hne : ¬ i = a := by omega
    rw [ih T a (i + 1) (by omega)]
    by_cases hiT : i ∈ T
    · rw [if_pos (Or.inr hiT), if_pos hiT]
    · rw [if_neg (by tauto), if_neg hiT]

theorem keepFrom_eraseIdx : ∀ (rows : List Event) (T : List Nat) (a i : Nat),
    (∀ t ∈ T, a < t) → i ≤ a →
    (keepFrom T rows i).eraseIdx (a - i) = keepFrom (a :: T) rows i := by
  intro rows
  induction rows with
  | nil =>
    intro T a i _ _
    rfl
  | cons e rest ih =>
    intro T a i hT hia
    have hiT : i ∉ T := fun h => absurd (hT i h) (by omega)
    simp only [keepFrom, List.mem_cons]
    rw [if_neg hiT]
    by_cases hieq : i = a
    · subst hieq
      rw [if_pos (Or.inl rfl)]
      simp only [Nat.sub_self, List.eraseIdx_cons_zero]
      rw [keepFrom_cons_lt rest T i (i + 1) (by omega)]
    · have hlt : i < a := by omega
      rw [if_neg (by tauto)]
      have hsub : a - i = (a - (i + 1)) + 1 := by omega
      rw [hsub, List.eraseIdx_cons_succ]
      rw [ih T a (i + 1) hT (by omega)]

theorem applyRemovals_eq_keepFrom : ∀ (T : List Nat) (rows : List Event),
    T.Pairwise (· < ·) → applyRemovals rows T = keepFrom T rows 0 := by
  intro T
  induction T with
  | nil =>
    intro rows _
    exact (keepFrom_nilT rows 0).symm
  | cons a tl ih =>
    intro rows hpw
    show (applyRemovals rows tl).eraseIdx a = keepFrom (a :: tl) rows 0
    rw [ih rows (List.Pairwise.of_cons hpw)]
    have h := keepFrom_eraseIdx rows tl a 0 (List.pairwise_cons.mp hpw).1 (Nat.zero_le a)
    simpa using h

theorem keepFrom_sublist : ∀ (rows : List Event) (T : List Nat) (i : Nat),
    (keepFrom T rows i).Sublist rows := by
  intro rows
  induction rows with
  | nil =>
    intro T i
    exact List.Sublist.refl []
  | cons e rest ih =>
    intro T i
    simp only [keepFrom]
    split
    · exact (ih T (i + 1)).cons e
    · exact (ih T (i + 1)).cons₂ e

theorem keepFrom_excl (P : Event → Prop) : ∀ (rows : List Event) (T : List Nat) (i : Nat),
    (∀ (j : Nat) (h : j < rows.length), P (rows.get ⟨j, h⟩) → (i + j) ∈ T) →
    ∀ e ∈ keepFrom T rows i, ¬ P e := by
  intro rows
  induction rows with
  | nil =>
    intro T i _ e he
    cases he
  | cons x rest ih =>
    intro T i hP e he
    have hstep : ∀ (j : Nat) (h : j < rest.length),
        P (rest.get ⟨j, h⟩) → ((i + 1) + j) ∈ T := by
      intro j hj hPj
      have h := hP (j + 1) (by simpa using Nat.succ_lt_succ hj) (by simpa using hPj)
      simpa [Nat.add_assoc, Nat.add_comm 1 j] using h
    simp only [keepFrom] at he
    by_cases hiT : i ∈ T
    · rw [if_pos hiT] at he
      exact ih T (i + 1) hstep e he
    · rw [if_neg hiT] at he
      rcases List.mem_cons.mp he with rfl | he2
      · intro hPe
        exact hiT (by simpa using hP 0 (by simp) (by simpa using hPe))
      · exact ih T (i + 1) hstep e he2

theorem supersededIdx_nodup (ids : List Nat) (rows : List Event) :
    (supersededIdx ids rows).Nodup :=
  List.Nodup.filter _ (List.nodup_range _)

theorem supersededIdx_bound (ids : List Nat) (rows : List Event) :
    ∀ x ∈ supersededIdx ids rows, x < rows.length := by
  intro x hx
  exact List.mem_range.mp (List.mem_filter.mp hx).1

theorem supersededIdx_complete (ids : List Nat) (rows : List Event)
    (j : Nat) (h : j < rows.length) (hmem : eventContact (rows.get ⟨j, h⟩) ∈ ids) :
    j ∈ supersededIdx ids rows := by
  refine List.mem_filter.mpr ⟨List.mem_range.mpr h, ?_⟩
  rw [decide_eq_true_eq, List.getD_eq_getElem rows dummyEvent h]
  simpa [List.get_eq_getElem] using hmem

theorem sortedIdx_spec (S : List Nat) (hnd : S.Nodup) :
    (S.insertionSort (· ≤ ·)).Pairwise (· < ·) ∧
    (∀ x, x ∈ S.insertionSort (· ≤ ·) ↔ x ∈ S) ∧
    (S.insertionSort (· ≤ ·)).length = S.length := by
  have hperm := List.perm_insertionSort (· ≤ ·) S
  have hsorted : (S.insertionSort (· ≤ ·)).Pairwise (· ≤ ·) :=
    List.sorted_insertionSort (· ≤ ·) S
  have hnd2 : (S.insertionSort (· ≤ ·)).Nodup := hperm.nodup_iff.mpr hnd
  refine ⟨?_, fun x => hperm.mem_iff, hperm.length_eq⟩
  exact (hsorted.and hnd2).imp (fun h => lt_of_le_of_ne h.1 h.2)

theorem removalSet_spec (env : MergerEnv) (ids : List Nat) (rows : List Event)
    (reCount : Nat) :
    (removalSet env ids rows reCount).Nodup ∧
    (∀ x ∈ removalSet env ids rows reCount, x < rows.length) ∧
    (∀ x ∈ supersededIdx ids rows, x ∈ removalSet env ids rows reCount) := by
  rw [removalSet]
  split
  · have h := trimLoop_spec rows.length (supersededIdx ids rows)
      ((rows.length : Int) - 1)
      ((rows.length : Int) + reCount - (supersededIdx ids rows).length - env.queryLimit)
      (supersededIdx_nodup ids rows) (supersededIdx_bound ids rows)
      (by omega)
      (by intro j hj1 hj2; exfalso; omega)
    exact ⟨h.1, h.2.1, h.2.2.1⟩
  · exact ⟨supersededIdx_nodup ids rows, supersededIdx_bound ids rows, fun x hx => hx⟩

theorem removalSet_length (env : MergerEnv) (ids : List Nat) (rows : List Event)
    (reCount : Nat) (hq : env.queryLimit ≠ 0) :
    (removalSet env ids rows reCount).length =
      (supersededIdx ids rows).length +
        ((rows.length : Int) + reCount -
          (supersededIdx ids rows).length - env.queryLimit).toNat ∨
    (∀ j, j < rows.length → j ∈ removalSet env ids rows reCount) := by
  rw [removalSet, if_pos hq]
  exact (trimLoop_spec rows.length (supersededIdx ids rows)
      ((rows.length : Int) - 1)
      ((rows.length : Int) + reCount - (supersededIdx ids rows).length - env.queryLimit)
      (supersededIdx_nodup ids rows) (supersededIdx_bound ids rows)
      (by omega)
      (by intro j hj1 hj2; exfalso; omega)).2.2.2

theorem mergePhase_rows_eq (env : MergerEnv) (s : MergerState)
    (h : s.resolvedEvents.isEmpty = false) :
    (mergePhase env s).1.rows =
      s.resolvedEvents ++ applyRemovals s.rows
        ((removalSet env s.resolvedContactIds s.rows
          s.resolvedEvents.length).insertionSort (· ≤ ·)) := by
  rw [mergePhase]
  rw [if_neg (by simp [h])]

theorem mergePhase_resolvedEvents (env : MergerEnv) (s : MergerState) :
    (mergePhase env s).1.resolvedEvents = [] := by
  rw [mergePhase]
  split
  · rename_i he
    simpa using List.isEmpty_iff.mp he
  · rfl

theorem mergePhase_length (env : MergerEnv) (s : MergerState) (hpos : 0 < env.queryLimit)
    (hre : s.resolvedEvents.length ≤ env.queryLimit)
    (hrows : s.rows.length ≤ env.queryLimit) :
    (mergePhase env s).1.rows.length ≤ env.queryLimit := by
  rcases he : s.resolvedEvents.isEmpty with _ | _
  · rw [mergePhase_rows_eq env s he]
    have hrs := removalSet_spec env s.resolvedContactIds s.rows s.resolvedEvents.length
    have hsort := sortedIdx_spec (removalSet env s.resolvedContactIds s.rows
      s.resolvedEvents.length) hrs.1
    set T := (removalSet env s.resolvedContactIds s.rows
      s.resolvedEvents.length).insertionSort (· ≤ ·) with hT
    have hTb : ∀ x ∈ T, x < s.rows.length := fun x hx => hrs.2.1 x ((hsort.2.1 x).mp hx)
    have hlen := applyRemovals_length T s.rows hsort.1 hTb
    rcases removalSet_length env s.resolvedContactIds s.rows s.resolvedEvents.length
        (by omega) with hcase | hcase
    · rw [List.length_append]
      have hTlen : T.length = (removalSet env s.resolvedContactIds s.rows
          s.resolvedEvents.length).length := hsort.2.2
      omega
    · have hsub : (List.range s.rows.length) ⊆ T := by
        intro j hj
        exact (hsort.2.1 j).mpr (hcase j (List.mem_range.mp hj))
      have hple := (List.subperm_of_subset (List.nodup_range _) hsub).length_le
      rw [List.length_range] at hple
      rw [List.length_append]
      omega
  · rw [mergePhase, if_pos he]
    exact hrows

theorem mergePhase_unique (env : MergerEnv) (s : MergerState)
    (h1 : (s.rows.map eventContact).Nodup)
    (h2 : ∀ e ∈ s.rows, eventContact e ≠ 0)
    (h3 : (s.resolvedEvents.map eventContact).Nodup)
    (h4 : ∀ e ∈ s.resolvedEvents,
      eventContact e ≠ 0 ∧ eventContact e ∈ s.resolvedContactIds) :
    ((mergePhase env s).1.rows.map eventContact).Nodup ∧
    (∀ e ∈ (mergePhase env s).1.rows, eventContact e ≠ 0) := by
  rcases he : s.resolvedEvents.isEmpty with _ | _
  · rw [mergePhase_rows_eq env s he]
    have hrs := removalSet_spec env s.resolvedContactIds s.rows s.resolvedEvents.length
    have hsort := sortedIdx_spec (removalSet env s.resolvedContactIds s.rows
      s.resolvedEvents.length) hrs.1
    set T := (removalSet env s.resolvedContactIds s.rows
      s.resolvedEvents.length).insertionSort (· ≤ ·) with hT
    have hkf : applyRemovals s.rows T = keepFrom T s.rows 0 :=
      applyRemovals_eq_keepFrom T s.rows hsort.1
    have hsubl : (applyRemovals s.rows T).Sublist s.rows := by
      rw [hkf]
      exact keepFrom_sublist s.rows T 0
    have hkept_nodup : ((applyRemovals s.rows T).map eventContact).Nodup :=
      List.Nodup.sublist (hsubl.map eventContact) h1
    have hkept_nz : ∀ e ∈ applyRemovals s.rows T, eventContact e ≠ 0 :=
      fun e hee => h2 e (hsubl.mem hee)
    have hkept_excl : ∀ e ∈ applyRemovals s.rows T,
        ¬ eventContact e ∈ s.resolvedContactIds := by
      rw [hkf]
      refine keepFrom_excl (fun e => eventContact e ∈ s.resolvedContactIds) s.rows T 0 ?_
      intro j hj hPj
      have hmem := supersededIdx_complete s.resolvedContactIds s.rows j hj hPj
      simpa using (hsort.2.1 j).mpr (hrs.2.2 j hmem)
    constructor
    · rw [List.map_append, List.nodup_append]
      refine ⟨h3, hkept_nodup, ?_⟩
      intro c hc1 hc2
      rcases List.mem_map.mp hc1 with ⟨e1, he1, rfl⟩
      rcases List.mem_map.mp hc2 with ⟨e2, he2, hce⟩
      exact hkept_excl e2 he2 (hce ▸ (h4 e1 he1).2)
    · intro e hee
      rcases List.mem_append.mp hee with hh | hh
      · exact (h4 e hh).1
      · exact hkept_nz e hh
  · rw [mergePhase, if_pos he]
    exact ⟨h1, h2⟩

theorem phase1_rows (env : MergerEnv) (s : MergerState) (events : List Event)
    (resolved : Bool) : (phase1 env s events resolved).rows = s.rows := by
  rw [phase1]
  split <;> rfl

theorem prependEvents_eq_nil (env : MergerEnv) (s : MergerState) (events : List Event)
    (resolved : Bool) (hu : (phase1 env s events resolved).unresolvedEvents = []) :
    prependEvents env s events resolved =
      finishMerge env (phase1 env s events resolved) resolved := by
  rw [prependEvents, hu]

theorem prependEvents_eq_take (env : MergerEnv) (s : MergerState) (events : List Event)
    (resolved : Bool) (e : Event) (rest : List Event)
    (hu : (phase1 env s events resolved).unresolvedEvents = e :: rest)
    (hcond : env.queryLimit = 0 ∨
      (phase1 env s events resolved).resolvedEvents.length < env.queryLimit) :
    prependEvents env s events resolved =
      ({ phase1 env s events resolved with unresolvedEvents := rest },
       ⟨[e], [], [], false⟩) := by
  rw [prependEvents, hu]
  simp only [if_pos hcond]

theorem prependEvents_eq_drop (env : MergerEnv) (s : MergerState) (events : List Event)
    (resolved : Bool) (e : Event) (rest : List Event)
    (hu : (phase1 env s events resolved).unresolvedEvents = e :: rest)
    (hcond : ¬ (env.queryLimit = 0 ∨
      (phase1 env s events resolved).resolvedEvents.length < env.queryLimit)) :
    prependEvents env s events resolved =
      finishMerge env { phase1 env s events resolved with unresolvedEvents := [] }
        resolved := by
  rw [prependEvents, hu]
  simp only [if_neg hcond]

theorem scanResolved_length (env : MergerEnv) :
    ∀ (events re : List Event) (ids : List Nat), re.length < env.queryLimit →
      (scanResolved env events re ids).1.length ≤ env.queryLimit := by
  intro events
  induction events with
  | nil =>
    intro re ids h
    simpa [scanResolved] using le_of_lt h
  | cons e rest ih =>
    intro re ids h
    simp only [scanResolved]
    split
    · split
      · split
        · exact ih re ids h
        · split
          · split
            · rename_i hlim
              simp only
              omega
            · rename_i hlim
              refine ih _ _ ?_
              simp only [List.length_append, List.length_singleton] at hlim ⊢
              omega
          · exact ih re ids h
      · exact ih re ids h
    · exact ih re ids h

theorem scanResolved_inv (env : MergerEnv) :
    ∀ (events re : List Event) (ids : List Nat),
      (re.map eventContact).Nodup →
      (∀ x ∈ re, eventContact x ≠ 0 ∧ eventContact x ∈ ids) →
      ((scanResolved env events re ids).1.map eventContact).Nodup ∧
      (∀ x ∈ (scanResolved env events re ids).1,
        eventContact x ≠ 0 ∧ eventContact x ∈ (scanResolved env events re ids).2) := by
  intro events
  induction events with
  | nil =>
    intro re ids h1 h2
    simpa [scanResolved] using ⟨h1, h2⟩
  | cons e rest ih =>
    intro re ids h1 h2
    simp only [scanResolved]
    split
    · split
      · rename_i hcid
        split
        · exact ih re ids h1 h2
        · split
          · have hnew1 : ((re ++ [e]).map eventContact).Nodup := by
              rw [List.map_append, List.map_singleton]
              rw [List.nodup_append]
              refine ⟨h1, List.nodup_singleton _, ?_⟩
              intro c hc1 hc2
              rcases List.mem_map.mp hc1 with ⟨x, hx, rfl⟩
              simp only [List.mem_singleton] at hc2
              exact hcid.2 (hc2 ▸ (h2 x hx).2)
            have hnew2 : ∀ x ∈ re ++ [e],
                eventContact x ≠ 0 ∧ eventContact x ∈ eventContact e :: ids := by
              intro x hx
              rcases List.mem_append.mp hx with hx2 | hx2
              · exact ⟨(h2 x hx2).1, List.mem_cons_of_mem _ (h2 x hx2).2⟩
              · simp only [List.mem_singleton] at hx2
                subst hx2
                exact ⟨hcid.1, List.mem_cons_self _ _⟩
            split
            · exact ⟨hnew1, hnew2⟩
            · exact ih _ _ hnew1 hnew2
          · exact ih re ids h1 h2
      · exact ih re ids h1 h2
    · exact ih re ids h1 h2

theorem phase1_resolvedEvents_le (env : MergerEnv) (s : MergerState) (events : List Event)
    (resolved : Bool) (hre : s.resolvedEvents.length < env.queryLimit) :
    (phase1 env s events resolved).resolvedEvents.length ≤ env.queryLimit := by
  rw [phase1]
  cases resolved
  · simpa using le_of_lt hre
  · simpa using scanResolved_length env events s.resolvedEvents s.resolvedContactIds hre

theorem prependEvents_inv1 (env : MergerEnv) (s : MergerState) (events : List Event)
    (resolved : Bool) (hpos : 0 < env.queryLimit)
    (hrows : s.rows.length ≤ env.queryLimit)
    (hre : s.resolvedEvents.length < env.queryLimit) :
    (prependEvents env s events resolved).1.rows.length ≤ env.queryLimit ∧
    (prependEvents env s events resolved).1.resolvedEvents.length < env.queryLimit := by
  have hrows1 : (phase1 env s events resolved).rows.length ≤ env.queryLimit := by
    rw [phase1_rows]
    exact hrows
  have hre1 : (phase1 env s events resolved).resolvedEvents.length ≤ env.queryLimit :=
    phase1_resolvedEvents_le env s events resolved hre
  rcases hu : (phase1 env s events resolved).unresolvedEvents with _ | ⟨e, rest⟩
  · rw [prependEvents_eq_nil env s events resolved hu]
    constructor
    · exact mergePhase_length env _ hpos hre1 hrows1
    · show (mergePhase env _).1.resolvedEvents.length < env.queryLimit
      rw [mergePhase_resolvedEvents]
      simpa using hpos
  · by_cases hcond : env.queryLimit = 0 ∨
        (phase1 env s events resolved).resolvedEvents.length < env.queryLimit
    · rw [prependEvents_eq_take env s events resolved e rest hu hcond]
      refine ⟨hrows1, ?_⟩
      rcases hcond with h0 | hlt
      · omega
      · exact hlt
    · rw [prependEvents_eq_drop env s events resolved e rest hu hcond]
      constructor
      · exact mergePhase_length env _ hpos hre1 hrows1
      · show (mergePhase env _).1.resolvedEvents.length < env.queryLimit
        rw [mergePhase_resolvedEvents]
        simpa using hpos

theorem phase1_inv2 (env : MergerEnv) (s : MergerState) (events : List Event)
    (resolved : Bool)
    (h3 : (s.resolvedEvents.map eventContact).Nodup)
    (h4 : ∀ x ∈ s.resolvedEvents,
      eventContact x ≠ 0 ∧ eventContact x ∈ s.resolvedContactIds) :
    ((phase1 env s events resolved).resolvedEvents.map eventContact).Nodup ∧
    (∀ x ∈ (phase1 env s events resolved).resolvedEvents,
      eventContact x ≠ 0 ∧
        eventContact x ∈ (phase1 env s events resolved).resolvedContactIds) := by
  rw [phase1]
  cases resolved
  · simpa using ⟨h3, h4⟩
  · simpa using scanResolved_inv env events s.resolvedEvents s.resolvedContactIds h3 h4

theorem prependEvents_inv2 (env : MergerEnv) (s : MergerState) (events : List Event)
    (resolved : Bool)
    (h1 : (s.rows.map eventContact).Nodup)
    (h2 : ∀ x ∈ s.rows, eventContact x ≠ 0)
    (h3 : (s.resolvedEvents.map eventContact).Nodup)
    (h4 : ∀ x ∈ s.resolvedEvents,
      eventContact x ≠ 0 ∧ eventContact x ∈ s.resolvedContactIds) :
    ((prependEvents env s events resolved).1.rows.map eventContact).Nodup ∧
    (∀ x ∈ (prependEvents env s events resolved).1.rows, eventContact x ≠ 0) ∧
    ((prependEvents env s events resolved).1.resolvedEvents.map eventContact).Nodup ∧
    (∀ x ∈ (prependEvents env s events resolved).1.resolvedEvents,
      eventContact x ≠ 0 ∧
        eventContact x ∈ (prependEvents env s events resolved).1.resolvedContactIds) := by
  have hrows1 : (phase1 env s events resolved).rows = s.rows :=
    phase1_rows env s events resolved
  have hph := phase1_inv2 env s events resolved h3 h4
  rcases hu : (phase1 env s events resolved).unresolvedEvents with _ | ⟨e, rest⟩
  · rw [prependEvents_eq_nil env s events resolved hu]
    have hm := mergePhase_unique env (phase1 env s events resolved)
      (by rw [hrows1]; exact h1) (by rw [hrows1]; exact h2) hph.1 hph.2
    refine ⟨hm.1, hm.2, ?_, ?_⟩
    · show ((mergePhase env _).1.resolvedEvents.map eventContact).Nodup
      rw [mergePhase_resolvedEvents]
      simp
    · show ∀ x ∈ (mergePhase env _).1.resolvedEvents, _
      rw [mergePhase_resolvedEvents]
      simp
  · by_cases hcond : env.queryLimit = 0 ∨
        (phase1 env s events resolved).resolvedEvents.length < env.queryLimit
    · rw [prependEvents_eq_take env s events resolved e rest hu hcond]
      exact ⟨by rw [hrows1] at *; exact h1, by rw [hrows1] at *; exact h2, hph.1, hph.2⟩
    · rw [prependEvents_eq_drop env s events resolved e rest hu hcond]
      have hm := mergePhase_unique env
        { phase1 env s events resolved with unresolvedEvents := [] }
        (by
          show ((phase1 env s events resolved).rows.map eventContact).Nodup
          rw [hrows1]
          exact h1)
        (by
          show ∀ x ∈ (phase1 env s events resolved).rows, eventContact x ≠ 0
          rw [hrows1]
          exact h2)
        hph.1 hph.2
      refine ⟨hm.1, hm.2, ?_, ?_⟩
      · show ((mergePhase env _).1.resolvedEvents.map eventContact).Nodup
        rw [mergePhase_resolvedEvents]
        simp
      · show ∀ x ∈ (mergePhase env _).1.resolvedEvents, _
        rw [mergePhase_resolvedEvents]
        simp

/-! ## Claim theorems -/

/-- Claim C1: for every sequence of ingested batches and every capacity
N > 0, the ResultList length is at most N after every ingestion pass of
prependEvents: after superseded entries are removed and accepted entries
inserted, tail entries not already marked for removal are trimmed until the
bound holds. -/
theorem c1_capacity_bound (env : MergerEnv) (batches : List (List Event × Bool))
    (hpos : 0 < env.queryLimit) :
    (ingestAll env batches).rows.length ≤ env.queryLimit := by
  suffices h : ∀ (bs : List (List Event × Bool)) (st : MergerState),
      st.rows.length ≤ env.queryLimit → st.resolvedEvents.length < env.queryLimit →
      (bs.foldl (fun st b => (prependEvents env st b.1 b.2).1) st).rows.length ≤
        env.queryLimit ∧
      (bs.foldl (fun st b => (prependEvents env st b.1 b.2).1) st).resolvedEvents.length <
        env.queryLimit by
    exact (h batches initialMergerState (by simp [initialMergerState])
      (by simpa [initialMergerState] using hpos)).1
  intro bs
  induction bs with
  | nil =>
    intro st a b
    exact ⟨a, b⟩
  | cons b tl ih =>
    intro st a c
    simp only [List.foldl_cons]
    have hstep := prependEvents_inv1 env st b.1 b.2 hpos a c
    exact ih _ hstep.1 hstep.2

/-- Witness for C1 at capacity 2 and one concrete resolved batch. -/
theorem c1_capacity_bound_witness :
    0 < (2 : Nat) ∧
      (ingestAll ⟨2, 0, false, 0, fun _ => false⟩
        [([⟨1, 10, 1, ⟨"l", "r", 5, 0⟩⟩], true)]).rows.length ≤ 2 :=
  ⟨by decide, c1_capacity_bound ⟨2, 0, false, 0, fun _ => false⟩ _ (by decide)⟩

/-- Claim C2: after every ingestion pass the ResultList never holds two
entries with the same nonzero contact id: within a batch only the first
event per contact id is accepted, and every existing entry whose contact id
is claimed by an accepted event is removed before insertion. -/
theorem c2_contact_uniqueness (env : MergerEnv) (batches : List (List Event × Bool)) :
    (ingestAll env batches).rows.Pairwise
      (fun a b => eventContact a ≠ eventContact b ∨ eventContact a = 0) := by
  suffices h : ∀ (bs : List (List Event × Bool)) (st : MergerState),
      (st.rows.map eventContact).Nodup →
      (∀ x ∈ st.rows, eventContact x ≠ 0) →
      (st.resolvedEvents.map eventContact).Nodup →
      (∀ x ∈ st.resolvedEvents,
        eventContact x ≠ 0 ∧ eventContact x ∈ st.resolvedContactIds) →
      ((bs.foldl (fun st b => (prependEvents env st b.1 b.2).1) st).rows.map
        eventContact).Nodup by
    have hnd := h batches initialMergerState (by simp [initialMergerState])
      (by simp [initialMergerState]) (by simp [initialMergerState])
      (by simp [initialMergerState])
    have hpw := List.pairwise_map.mp hnd
    exact hpw.imp (fun hne => Or.inl hne)
  intro bs
  induction bs with
  | nil =>
    intro st a _ _ _
    exact a
  | cons b tl ih =>
    intro st a c d f
    simp only [List.foldl_cons]
    have hstep := prependEvents_inv2 env st b.1 b.2 a c d f
    exact ih _ hstep.1 hstep.2.1 hstep.2.2.1 hstep.2.2.2

/-- Claim C3: submitting a batch while idle schedules exactly one deferred
finished-check even when the pending set stays empty (zero directory
misses); no finished signal fires during the submission itself, delivering
the single deferred check emits finished exactly once and returns to idle,
a second delivery is a no-op, and in general any resolver step emits at
most one finished signal and only while leaving the resolving state. -/
theorem c3_finished_once (dir : Directory) (rs : List Recipient) (s : RState)
    (hidle : s.resolving = false) (hp : s.pending = []) (hd : s.deferredChecks = 0)
    (hnomiss : ∀ r ∈ rs,
      r.localUid = "" ∨ r.remoteUid = "" ∨ dirLookup dir r.localUid r.remoteUid ≠ none) :
    (addList dir rs s).finishedCount = s.finishedCount ∧
    (addList dir rs s).deferredChecks = 1 ∧
    (addList dir rs s).resolving = true ∧
    (addList dir rs s).pending = [] ∧
    (runDeferred (addList dir rs s)).finishedCount = s.finishedCount + 1 ∧
    (runDeferred (addList dir rs s)).resolving = false ∧
    (runDeferred (addList dir rs s)).deferredChecks = 0 ∧
    runDeferred (runDeferred (addList dir rs s)) = runDeferred (addList dir rs s) ∧
    (∀ (a : RAction) (t : RState),
      (stepR dir a t).finishedCount = t.finishedCount ∨
      ((stepR dir a t).finishedCount = t.finishedCount + 1 ∧
        t.resolving = true ∧ (stepR dir a t).resolving = false)) := by
  have hff := foldResolve_frame dir rs s
  have hfp := foldResolve_pending_empty dir rs s hp hnomiss
  have hs1 : addList dir rs s =
      { rs.foldl (fun st r => resolveOp dir r st) s with
        resolving := true,
        deferredChecks :=
          (rs.foldl (fun st r => resolveOp dir r st) s).deferredChecks + 1 } := by
    rw [addList, checkIfFinishedAsynchronously]
    rw [if_pos (by simp [hff.1, hidle])]
    rw [if_pos (by simp [List.isEmpty_iff, hfp])]
  have h1 : (addList dir rs s).finishedCount = s.finishedCount := by
    rw [hs1]
    exact hff.2.1
  have h2 : (addList dir rs s).deferredChecks = 1 := by
    rw [hs1]
    simp [hff.2.2, hd]
  have h3 : (addList dir rs s).resolving = true := by rw [hs1]
  have h4 : (addList dir rs s).pending = [] := by
    rw [hs1]
    exact hfp
  rcases hT : addList dir rs s with ⟨tp, trv, tfr, tm, tdc, tfc, tlc⟩
  rw [hT] at h1 h2 h3 h4
  simp only at h1 h2 h3 h4
  subst h1 h2 h3 h4
  refine ⟨rfl, rfl, rfl, rfl, ?_, ?_, ?_, ?_, ?_⟩
  · simp [runDeferred, checkIfFinished]
  · simp [runDeferred, checkIfFinished]
  · simp [runDeferred, checkIfFinished]
  · simp [runDeferred, checkIfFinished]
  · intro a t
    cases a with
    | add rs2 =>
      left
      simp only [stepR, addList]
      rw [checkIfFinishedAsynchronously_finished]
      exact (foldResolve_frame dir rs2 t).2.1
    | callback first second item =>
      simp only [stepR, addressResolved]
      split
      · exact Or.inl rfl
      · have hcore := addressResolvedCore_frame dir first second item t
        rcases checkIfFinished_emission (addressResolvedCore dir first second item t)
          with ⟨he1, _⟩ | ⟨he1, he2, he3⟩
        · exact Or.inl (he1.trans hcore.2)
        · exact Or.inr ⟨by rw [he1, hcore.2], hcore.1 ▸ he2, he3⟩
    | deferred =>
      simp only [stepR, runDeferred]
      split
      · rcases checkIfFinished_emission { t with deferredChecks := t.deferredChecks - 1 }
          with ⟨he1, _⟩ | ⟨he1, he2, he3⟩
        · exact Or.inl he1
        · exact Or.inr ⟨he1, he2, he3⟩
      · exact Or.inl rfl

/-- Witness for C3: a two-recipient batch with all-synchronous hits yields
one deferred finished notification, not two. -/
theorem c3_finished_once_witness :
    (addList exDirHit [⟨"a", "b", 0, 0⟩, ⟨"c", "d", 0, 0⟩] initialRState).finishedCount =
      initialRState.finishedCount ∧
    (addList exDirHit [⟨"a", "b", 0, 0⟩, ⟨"c", "d", 0, 0⟩] initialRState).deferredChecks = 1 ∧
    (runDeferred (addList exDirHit [⟨"a", "b", 0, 0⟩, ⟨"c", "d", 0, 0⟩]
        initialRState)).finishedCount = initialRState.finishedCount + 1 ∧
    runDeferred (runDeferred (addList exDirHit [⟨"a", "b", 0, 0⟩, ⟨"c", "d", 0, 0⟩]
        initialRState)) =
      runDeferred (addList exDirHit [⟨"a", "b", 0, 0⟩, ⟨"c", "d", 0, 0⟩] initialRState) := by
  have h := c3_finished_once exDirHit [⟨"a", "b", 0, 0⟩, ⟨"c", "d", 0, 0⟩] initialRState
    rfl rfl rfl (by decide)
  exact ⟨h.1, h.2.1, h.2.2.2.2.1, h.2.2.2.2.2.2.2.1⟩

/-- Claim C4: starting from ResultList [E1(contact 5), E2(contact 7)] with
capacity 2, ingesting the resolved batch [E3(contact 7, t = 20)] removes E2
as superseded, inserts E3 at the head preserving batch order, and yields
ResultList [E3, E1]. -/
theorem c4_supersede_scenario :
    (prependEvents exEnv2 exState12 [exEvent3] true).1.rows = [exEvent3, exEvent1] ∧
    (prependEvents exEnv2 exState12 [exEvent3] true).2.removedRanges = [(1, 1)] ∧
    (prependEvents exEnv2 exState12 [exEvent3] true).2.insertedEvents = [exEvent3] := by
  decide

/-- Claim C5: submitting the same (localUid, remoteUid) pair twice before
resolution completes performs exactly one directory lookup, the second
submit finds the pair pending and is a no-op, and the single callback
resolves the pair to one shared outcome. -/
theorem c5_dedup (dir : Directory) (r : Recipient) (s : RState)
    (h1 : r.localUid ≠ "") (h2 : r.remoteUid ≠ "")
    (hres : isContactResolved s.resolvedMap (r.localUid, r.remoteUid) = false)
    (hp : (r.localUid, r.remoteUid) ∉ s.pending)
    (hmiss : dirLookup dir r.localUid r.remoteUid = none) :
    (resolveOp dir r s).lookupCount = s.lookupCount + 1 ∧
    (r.localUid, r.remoteUid) ∈ (resolveOp dir r s).pending ∧
    resolveOp dir r (resolveOp dir r s) = resolveOp dir r s ∧
    ∀ item : Option Nat,
      lookupPair (addressResolved dir r.localUid r.remoteUid item
          (resolveOp dir r s)).resolvedMap (r.localUid, r.remoteUid) = some item ∧
      (r.localUid, r.remoteUid) ∉
        (addressResolved dir r.localUid r.remoteUid item (resolveOp dir r s)).pending := by
  have hstep : resolveOp dir r s =
      { s with lookupCount := s.lookupCount + 1,
               pending := (r.localUid, r.remoteUid) :: s.pending } := by
    simp [resolveOp, hres, h1, h2, hp, hmiss]
  have hsecond : resolveOp dir r (resolveOp dir r s) = resolveOp dir r s := by
    rw [hstep]
    simp [resolveOp, hres, h1, h2]
  refine ⟨by simp [hstep], by simp [hstep], hsecond, ?_⟩
  intro item
  have hcore : addressResolvedCore dir r.localUid r.remoteUid item (resolveOp dir r s) =
      { resolveOp dir r s with
        pending := (resolveOp dir r s).pending.filter
          (fun p => decide (p ≠ (r.localUid, r.remoteUid))),
        resolvedMap := setResolved (resolveOp dir r s).resolvedMap
          (r.localUid, r.remoteUid) item } := by
    rw [hstep]
    simp [addressResolvedCore, h1, h2]
  constructor
  · rw [addressResolved, if_neg h2, checkIfFinished_resolvedMap, hcore]
    simp [setResolved, lookupPair]
  · rw [addressResolved, if_neg h2, checkIfFinished_pending, hcore]
    simp [List.mem_filter]

/-- Witness for C5 with a concrete missing directory entry. -/
theorem c5_dedup_witness :
    (resolveOp exDirMiss ⟨"a", "b", 0, 0⟩ initialRState).lookupCount =
      initialRState.lookupCount + 1 ∧
    ("a", "b") ∈ (resolveOp exDirMiss ⟨"a", "b", 0, 0⟩ initialRState).pending ∧
    resolveOp exDirMiss ⟨"a", "b", 0, 0⟩ (resolveOp exDirMiss ⟨"a", "b", 0, 0⟩ initialRState) =
      resolveOp exDirMiss ⟨"a", "b", 0, 0⟩ initialRState ∧
    lookupPair (addressResolved exDirMiss "a" "b" (some 9)
        (resolveOp exDirMiss ⟨"a", "b", 0, 0⟩ initialRState)).resolvedMap ("a", "b") =
      some (some 9) ∧
    ("a", "b") ∉ (addressResolved exDirMiss "a" "b" (some 9)
        (resolveOp exDirMiss ⟨"a", "b", 0, 0⟩ initialRState)).pending := by
  have h := c5_dedup exDirMiss ⟨"a", "b", 0, 0⟩ initialRState (by decide) (by decide)
    (by decide) (by decide) (by decide)
  exact ⟨h.1, h.2.1, h.2.2.1, (h.2.2.2 (some 9)).1, (h.2.2.2 (some 9)).2⟩

/-- Claim C6: a callback with empty queryLocalUid re-derives the normalized
phone match key from queryRemoteUid; every pending entry matching that key
(also several distinct remoteUid strings sharing one normalized key) is
resolved via its own best-match lookup and removed from pending, and
non-matching pending entries keep their pending membership and their
resolution state. -/
theorem c6_phone_fanout (dir : Directory) (second : String) (item : Option Nat)
    (s : RState) (h : second ≠ "") :
    ∀ p ∈ s.pending,
      (matchesPhoneNumber dir p (dir.minimizePhone second) = true →
        p ∉ (addressResolved dir "" second item s).pending ∧
        lookupPair (addressResolved dir "" second item s).resolvedMap p =
          some (dir.itemByPhoneNumber p.2)) ∧
      (matchesPhoneNumber dir p (dir.minimizePhone second) = false →
        p ∈ (addressResolved dir "" second item s).pending ∧
        lookupPair (addressResolved dir "" second item s).resolvedMap p =
          lookupPair s.resolvedMap p) := by
  intro p hp
  have hcore : addressResolvedCore dir "" second item s =
      { s with
        pending := s.pending.filter
          (fun q => !(matchesPhoneNumber dir q (dir.minimizePhone second))),
        resolvedMap :=
          ((s.pending.filter
              (fun q => matchesPhoneNumber dir q (dir.minimizePhone second))).map
            (fun q => (q, dir.itemByPhoneNumber q.2))) ++ s.resolvedMap } := by
    rw [addressResolvedCore, if_pos rfl]
  have heq : addressResolved dir "" second item s =
      checkIfFinished (addressResolvedCore dir "" second item s) := by
    rw [addressResolved, if_neg h]
  constructor
  · intro hm
    constructor
    · rw [heq, checkIfFinished_pending, hcore]
      simp [List.mem_filter, hm]
    · rw [heq, checkIfFinished_resolvedMap, hcore]
      exact lookupPair_map_append_mem _ _ _ _ (List.mem_filter.mpr ⟨hp, hm⟩)
  · intro hm
    constructor
    · rw [heq, checkIfFinished_pending, hcore]
      simp [List.mem_filter, hp, hm]
    · rw [heq, checkIfFinished_resolvedMap, hcore]
      refine lookupPair_map_append_not_mem _ _ _ _ ?_
      intro hmem
      rw [(List.mem_filter.mp hmem).2] at hm
      cases hm

/-- Witness for C6: two pending numbers normalizing to one key are both
resolved, each by its own best match, while an unrelated entry is kept. -/
theorem c6_phone_fanout_witness :
    ((RING_ACCOUNT ++ "a", "+1555") ∉
      (addressResolved exDirPhone "" "+1555" none exPendingPhones).pending) ∧
    lookupPair (addressResolved exDirPhone "" "+1555" none exPendingPhones).resolvedMap
      (RING_ACCOUNT ++ "a", "+1555") = some (some 3) ∧
    ((RING_ACCOUNT ++ "b", "+1-555") ∉
      (addressResolved exDirPhone "" "+1555" none exPendingPhones).pending) ∧
    lookupPair (addressResolved exDirPhone "" "+1555" none exPendingPhones).resolvedMap
      (RING_ACCOUNT ++ "b", "+1-555") = some (some 4) ∧
    (("other", "zzz") ∈ (addressResolved exDirPhone "" "+1555" none exPendingPhones).pending) ∧
    lookupPair (addressResolved exDirPhone "" "+1555" none exPendingPhones).resolvedMap
      ("other", "zzz") = lookupPair exPendingPhones.resolvedMap ("other", "zzz") := by
  have h := c6_phone_fanout exDirPhone "+1555" none exPendingPhones (by decide)
  have ha := h (RING_ACCOUNT ++ "a", "+1555") (by simp [exPendingPhones])
  have hb := h (RING_ACCOUNT ++ "b", "+1-555") (by simp [exPendingPhones])
  have hc := h ("other", "zzz") (by simp [exPendingPhones])
  have hma : matchesPhoneNumber exDirPhone (RING_ACCOUNT ++ "a", "+1555")
      (exDirPhone.minimizePhone "+1555") = true := by decide
  have hmb : matchesPhoneNumber exDirPhone (RING_ACCOUNT ++ "b", "+1-555")
      (exDirPhone.minimizePhone "+1555") = true := by decide
  have hmc : matchesPhoneNumber exDirPhone ("other", "zzz")
      (exDirPhone.minimizePhone "+1555") = false := by decide
  refine ⟨(ha.1 hma).1, ?_, (hb.1 hmb).1, ?_, (hc.2 hmc).1, (hc.2 hmc).2⟩
  · have h2 := (ha.1 hma).2
    simpa [exDirPhone] using h2
  · have h2 := (hb.1 hmb).2
    simpa [exDirPhone] using h2

/-- Claim C7: submitting a recipient with an empty localUid or empty
remoteUid marks the pair resolved-to-nothing, performs no directory lookup,
inserts nothing into the pending set, and the operation completes normally. -/
theorem c7_empty_uid (dir : Directory) (r : Recipient) (s : RState)
    (hempty : r.localUid = "" ∨ r.remoteUid = "")
    (hres : isContactResolved s.resolvedMap (r.localUid, r.remoteUid) = false) :
    resolveOp dir r s =
      { s with resolvedMap := setResolved s.resolvedMap (r.localUid, r.remoteUid) none } ∧
    lookupPair (resolveOp dir r s).resolvedMap (r.localUid, r.remoteUid) = some none ∧
    (resolveOp dir r s).pending = s.pending ∧
    (resolveOp dir r s).lookupCount = s.lookupCount := by
  have h1 : resolveOp dir r s =
      { s with resolvedMap := setResolved s.resolvedMap (r.localUid, r.remoteUid) none } := by
    simp [resolveOp, hres, hempty]
  refine ⟨h1, ?_, ?_, ?_⟩ <;> simp [h1, lookupPair, setResolved]

/-- Witness for C7 with an empty localUid. -/
theorem c7_empty_uid_witness :
    resolveOp exDirMiss ⟨"", "x", 0, 0⟩ initialRState =
      { initialRState with
        resolvedMap := setResolved initialRState.resolvedMap ("", "x") none } ∧
    lookupPair (resolveOp exDirMiss ⟨"", "x", 0, 0⟩ initialRState).resolvedMap ("", "x") =
      some none ∧
    (resolveOp exDirMiss ⟨"", "x", 0, 0⟩ initialRState).pending = initialRState.pending ∧
    (resolveOp exDirMiss ⟨"", "x", 0, 0⟩ initialRState).lookupCount =
      initialRState.lookupCount :=
  c7_empty_uid exDirMiss ⟨"", "x", 0, 0⟩ initialRState (Or.inl rfl) (by decide)

/-- Counterexample to claim C8 as stated: a malformed callback (empty
queryRemoteUid) returns before checkIfFinished, so in a state that is
Resolving with an empty pending set the state is left unchanged: no
transition to Idle and no finished emission, although the claim demands the
finished-check to run for every invocation. -/
theorem c8_malformed_counterexample :
    exStuckState.pending = [] ∧ exStuckState.resolving = true ∧
    addressResolved exDirMiss "someLocal" "" none exStuckState = exStuckState ∧
    (addressResolved exDirMiss "someLocal" "" none exStuckState).resolving = true ∧
    (addressResolved exDirMiss "someLocal" "" none exStuckState).finishedCount =
      exStuckState.finishedCount :=
  ⟨rfl, rfl, rfl, rfl, rfl⟩

/-- Claim C8 (amended): for every invocation of addressResolved with a
nonempty queryRemoteUid the finished-check runs after processing: if the
pending set is then empty and the Resolver is Resolving, it transitions to
Idle and emits finished; a malformed invocation (empty queryRemoteUid) is
dropped without running the finished-check. -/
theorem c8_finished_check (dir : Directory) (first second : String) (item : Option Nat)
    (s : RState) (h : second ≠ "") :
    addressResolved dir first second item s =
      checkIfFinished (addressResolvedCore dir first second item s) ∧
    (addressResolvedCore dir first second item s).resolving = s.resolving ∧
    (addressResolvedCore dir first second item s).finishedCount = s.finishedCount ∧
    ((addressResolvedCore dir first second item s).pending = [] → s.resolving = true →
      (addressResolved dir first second item s).resolving = false ∧
      (addressResolved dir first second item s).finishedCount = s.finishedCount + 1) := by
  have hcr : (addressResolvedCore dir first second item s).resolving = s.resolving := by
    simp only [addressResolvedCore]
    split
    · rfl
    · split <;> rfl
  have hcf : (addressResolvedCore dir first second item s).finishedCount = s.finishedCount := by
    simp only [addressResolvedCore]
    split
    · rfl
    · split <;> rfl
  have heq : addressResolved dir first second item s =
      checkIfFinished (addressResolvedCore dir first second item s) := by
    rw [addressResolved, if_neg h]
  refine ⟨heq, hcr, hcf, ?_⟩
  intro hpend hres
  rw [heq]
  simp [checkIfFinished, hpend, hcr, hcf, hres]

/-- Witness for the amended C8: resolving the last pending entry emits
finished and leaves the resolving state. -/
theorem c8_finished_check_witness :
    (addressResolved exDirMiss "a" "b" none
      ⟨[("a", "b")], true, false, [], 0, 0, 0⟩).resolving = false ∧
    (addressResolved exDirMiss "a" "b" none
      ⟨[("a", "b")], true, false, [], 0, 0, 0⟩).finishedCount = 0 + 1 := by
  have h := c8_finished_check exDirMiss "a" "b" none
    ⟨[("a", "b")], true, false, [], 0, 0, 0⟩ (by decide)
  exact h.2.2.2 (by decide) rfl

/-- Claim C9: an ingestion pass that ends with queued unresolved events and
the accepted count below the capacity (or the capacity unbounded) removes
exactly the first queued event, hands it to the resolver, and returns
without touching the ResultList: no rows change, no diff is emitted, and
the accepted events and their claimed contact ids carry over unchanged. -/
theorem c9_unresolved_frame (env : MergerEnv) (s : MergerState) (events : List Event)
    (resolved : Bool)
    (hne : (phase1 env s events resolved).unresolvedEvents ≠ [])
    (hcond : env.queryLimit = 0 ∨
      (phase1 env s events resolved).resolvedEvents.length < env.queryLimit) :
    prependEvents env s events resolved =
      ({ phase1 env s events resolved with
          unresolvedEvents := (phase1 env s events resolved).unresolvedEvents.tail },
        ⟨(phase1 env s events resolved).unresolvedEvents.take 1, [], [], false⟩) ∧
    (prependEvents env s events resolved).1.rows = s.rows ∧
    (prependEvents env s events resolved).2.removedRanges = [] ∧
    (prependEvents env s events resolved).2.insertedEvents = [] ∧
    (prependEvents env s events resolved).2.resolvingChangedEmitted = false ∧
    (prependEvents env s events resolved).1.resolvedEvents =
      (phase1 env s events resolved).resolvedEvents ∧
    (prependEvents env s events resolved).1.resolvedContactIds =
      (phase1 env s events resolved).resolvedContactIds := by
  rcases hu : (phase1 env s events resolved).unresolvedEvents with _ | ⟨e, rest⟩
  · exact absurd hu hne
  · have heq := prependEvents_eq_take env s events resolved e rest hu hcond
    rw [heq]
    refine ⟨by simp, ?_, rfl, rfl, rfl, rfl, rfl⟩
    show (phase1 env s events resolved).rows = s.rows
    exact phase1_rows env s events resolved

/-- Witness for C9: one unresolved event with an unbounded capacity. -/
theorem c9_unresolved_frame_witness :
    prependEvents ⟨0, 0, false, 0, fun _ => false⟩ initialMergerState
        [⟨1, 10, 1, ⟨"l", "r", 5, 0⟩⟩] false =
      ({ phase1 ⟨0, 0, false, 0, fun _ => false⟩ initialMergerState
            [⟨1, 10, 1, ⟨"l", "r", 5, 0⟩⟩] false with
          unresolvedEvents :=
            (phase1 ⟨0, 0, false, 0, fun _ => false⟩ initialMergerState
              [⟨1, 10, 1, ⟨"l", "r", 5, 0⟩⟩] false).unresolvedEvents.tail },
        ⟨(phase1 ⟨0, 0, false, 0, fun _ => false⟩ initialMergerState
            [⟨1, 10, 1, ⟨"l", "r", 5, 0⟩⟩] false).unresolvedEvents.take 1,
          [], [], false⟩) ∧
    (prependEvents ⟨0, 0, false, 0, fun _ => false⟩ initialMergerState
        [⟨1, 10, 1, ⟨"l", "r", 5, 0⟩⟩] false).1.rows = initialMergerState.rows := by
  have h := c9_unresolved_frame ⟨0, 0, false, 0, fun _ => false⟩ initialMergerState
    [⟨1, 10, 1, ⟨"l", "r", 5, 0⟩⟩] false (by decide) (Or.inl rfl)
  exact ⟨h.1, h.2.1⟩

/-- Claim C10: calling setRequiredProperty or setExcludeFavorites with the
stored value is idempotent at the notification level: the stored
configuration is unchanged (setRequiredProperty recomputes addressFlags to
the identical value) and the changed signal fires exactly when the stored
value differs from the argument. -/
theorem c10_setter_idempotence (s : ModelSettings) (v : Nat) (b : Bool) :
    (s.requiredProperty = v → s.addressFlags = computeAddressFlags v →
      setRequiredProperty s v = (s, false)) ∧
    ((setRequiredProperty s v).2 = true ↔ s.requiredProperty ≠ v) ∧
    (s.excludeFavorites = b → setExcludeFavorites s b = (s, false)) ∧
    ((setExcludeFavorites s b).2 = true ↔ s.excludeFavorites ≠ b) := by
  refine ⟨?_, ?_, ?_, ?_⟩
  · intro h1 h2
    simp only [setRequiredProperty, ← h2, h1]
    simp [← h1]
  · simp only [setRequiredProperty]
    split <;> simp_all
  · intro h
    simp [setExcludeFavorites, h]
  · simp only [setExcludeFavorites]
    split <;> simp_all

/-- Witness for C10 on a settings record whose flags match its stored
required property. -/
theorem c10_setter_idempotence_witness :
    setRequiredProperty ⟨1, false, computeAddressFlags 1⟩ 1 =
      (⟨1, false, computeAddressFlags 1⟩, false) ∧
    setExcludeFavorites ⟨1, false, computeAddressFlags 1⟩ false =
      (⟨1, false, computeAddressFlags 1⟩, false) := by
  have h := c10_setter_idempotence ⟨1, false, computeAddressFlags 1⟩ 1 false
  exact ⟨h.1 rfl rfl, h.2.2.1 rfl⟩

end CommHistory
